import Mathlib

/-!
Verification development for the baresifter execution core
(`src/common/search.cpp`, `src/common/include/search.hpp`,
`src/x86_32/arch.cpp`).

The C++ sources are shallowly embedded: machine integers become `Nat`
with an explicit `% 2 ^ w` wherever wrap-around is observable
(`uint8_t` buffer bytes and prefix counts wrap at 256; `size_t` is the
32-bit `uintptr_t` of the x86_32 target and wraps at `2 ^ 32`), arrays
become `List Nat`, and the hardware side effects of `arch.cpp`
(page-table stores, control-register writes, the fatal assertion path)
become an explicit trace of actions.
-/

/-- `size_t` modulus of the x86_32 target (32-bit). -/
def USIZE : Nat := 4294967296

/-! ## Search engine (`src/common/search.cpp`)

`opcode_to_prefix_group` embeds the `switch` of `search.cpp:11-56`.
`detect_prefixes` is a global configuration bitmask (declared outside
the provided sources); it is threaded as the first argument.  The C++
truthiness test `detect_prefixes & (1<<g)` becomes `≠ 0`. -/

def opcode_to_prefix_group (detect_prefixes : Nat) (b : Nat) : Int :=
  if b = 0xF0 ∨ b = 0xF2 ∨ b = 0xF3 then           -- LOCK / REPNE / REP
    if detect_prefixes &&& (1 <<< 0) ≠ 0 then 0 else -1
  else if b = 0x2E ∨ b = 0x36 ∨ b = 0x3E ∨ b = 0x26 ∨ b = 0x64 ∨ b = 0x65 then
    -- segment overrides CS/SS/DS/ES/FS/GS
    if detect_prefixes &&& (1 <<< 1) ≠ 0 then 1 else -1
  else if b = 0x66 then                             -- operand size override
    if detect_prefixes &&& (1 <<< 2) ≠ 0 then 2 else -1
  else if b = 0x67 then                             -- address size override
    if detect_prefixes &&& (1 <<< 3) ≠ 0 then 3 else -1
  else if 0x40 ≤ b ∧ b ≤ 0x4F then                  -- REX range
    if detect_prefixes &&& (1 <<< 4) ≠ 0 then 4 else -1
  else -1

/-- The 256-entry table `prefix_lut` of `search.cpp:58-69`, modelled as its
lookup function; entry `i` holds `opcode_to_prefix_group i`, and the array
is always indexed with a `uint8_t`, hence the `% 256`. -/
def create_prefix_group_lut (detect_prefixes : Nat) : Nat → Int :=
  fun b => opcode_to_prefix_group detect_prefixes (b % 256)

/-- `prefix_state` of `search.cpp:72-122`: two `uint8_t[5]` arrays. -/
structure prefix_state where
  count : List Nat
  position : List Nat
deriving DecidableEq

def prefix_state.total_prefix_bytes (st : prefix_state) : Nat :=
  st.count.sum

def prefix_state.has_duplicated_prefixes (st : prefix_state) : Bool :=
  st.count.any (fun c => decide (2 ≤ c))

/-- `used_prefixes` is a global bitmask (declared outside the provided
sources); the member `used_prefixes_` of `search_engine` is not the name
resolved here. -/
def prefix_state.has_unused_prefixes (st : prefix_state) (used_prefixes : Nat) : Bool :=
  (List.range 5).any fun i =>
    decide (st.count.getD i 0 ≠ 0) && decide (used_prefixes &&& (1 <<< i) = 0)

/-- `has_ordered_prefixes` (`search.cpp:108-121`): for `i < j`, reject when
both groups occur and `position[i] > position[j]`. -/
def prefix_state.has_ordered_prefixes (st : prefix_state) : Bool :=
  (List.range 4).all fun i =>
    (List.range' (i + 1) (4 - i)).all fun j =>
      !(decide (st.count.getD i 0 ≠ 0) && decide (st.count.getD j 0 ≠ 0) &&
        decide (st.position.getD j 0 < st.position.getD i 0))

/-- The scan loop of `analyze_prefixes` (`search.cpp:128-135`): walk the
bytes left to right, stop at the first byte whose group is negative,
otherwise bump the `uint8_t` count of the group and store the (`uint8_t`)
position.  `i` is the running byte index. -/
def analyzeLoop (d : Nat) : List Nat → Nat → prefix_state → prefix_state
  | [], _, st => st
  | b :: rest, i, st =>
    if create_prefix_group_lut d b < 0 then st
    else
      analyzeLoop d rest (i + 1)
        { count := st.count.set (create_prefix_group_lut d b).toNat
            ((st.count.getD (create_prefix_group_lut d b).toNat 0 + 1) % 256),
          position := st.position.set (create_prefix_group_lut d b).toNat (i % 256) }

/-- `analyze_prefixes` (`search.cpp:124-138`); the program always passes the
15-byte `instruction_bytes` buffer, whose length is the loop bound. -/
def analyze_prefixes (d : Nat) (instr : List Nat) : prefix_state :=
  analyzeLoop d instr 0 ⟨List.replicate 5 0, List.replicate 5 0⟩

/-- A byte the scan of `analyze_prefixes` recognizes as a legacy prefix:
its table entry is a group id rather than the `-1` sentinel. -/
def is_prefix_byte (d b : Nat) : Bool :=
  decide (0 ≤ create_prefix_group_lut d b)

/-- The maximal initial run of recognized prefix bytes — exactly the bytes
the `analyze_prefixes` scan classifies before its `break`. -/
def prefix_run (d : Nat) (buf : List Nat) : List Nat :=
  buf.takeWhile (is_prefix_byte d)

/-- `search_engine` (`search.hpp:23-52`).  `group_lut_` is the member table
built by the `prefix_group_lut(size_t)` constructor, whose body is not in
the provided sources; modelled from the spec: a 256-entry byte-to-group
mapping built from the constructor's `detect_prefixes` bitmask. -/
structure search_engine where
  current_ : List Nat
  increment_at_ : Nat
  max_prefixes_ : Nat
  used_prefixes_ : Nat
  group_lut_ : Nat → Int

/-- The `search_engine` constructor (`search.hpp:49-51`); defaults are
`max_prefixes = 0`, `used_prefixes = 0xFF`, `detect_prefixes = 0xFF`. -/
def search_engine.make (max_pref used_pref detect_pref : Nat) (start : List Nat) :
    search_engine :=
  { current_ := start
    increment_at_ := 0
    max_prefixes_ := max_pref
    used_prefixes_ := used_pref
    group_lut_ := create_prefix_group_lut detect_pref }

/-- `clear_after` (`search.cpp:140-144`): `memset(raw + pos, 0, 15 - pos)`
guarded by `pos < 15`. -/
def clear_after (e : search_engine) (pos : Nat) : search_engine :=
  if pos < 15 then
    { e with current_ := e.current_.take pos ++ List.replicate (15 - pos) 0 }
  else e

/-- `start_over` (`search.cpp:146-149`): `increment_at_ = length - 1` in
`size_t` arithmetic (wraps below zero). -/
def start_over (e : search_engine) (length : Nat) : search_engine :=
  { e with increment_at_ := (length % USIZE + USIZE - 1) % USIZE }

/-- The rejection test of `find_next_candidate` (`search.cpp:171-174`). -/
def candidate_rejected (gd gu maxp : Nat) (buf : List Nat) : Bool :=
  decide (maxp < (analyze_prefixes gd buf).total_prefix_bytes) ||
  (analyze_prefixes gd buf).has_duplicated_prefixes ||
  (analyze_prefixes gd buf).has_unused_prefixes gu ||
  !(analyze_prefixes gd buf).has_ordered_prefixes

/-- Result of one `find_next_candidate` call.  `ret` carries the returned
`bool` together with the buffer and cursor after the call; `oob` means the
call dereferenced `current_.raw[increment_at_]` with `increment_at_ ≥ 15`
(out of bounds of the 15-byte array); `out_of_fuel` means the supplied
step bound was exhausted (never the program's own behaviour). -/
inductive find_result where
  | ret (found : Bool) (buf : List Nat) (inc : Nat)
  | oob
  | out_of_fuel
deriving DecidableEq

/-- The `again:` loop of `find_next_candidate` (`search.cpp:151-179`),
with an explicit fuel for the `goto again` iterations.  Each iteration
increments the `uint8_t` at the cursor; on wrap it moves the cursor left
(post-decrement of the `size_t`, underflowing to `USIZE - 1` when the old
value was 0, in which case the search reports exhaustion), otherwise it
analyzes the buffer and either rejects (another `goto again`) or accepts. -/
def find_next_loop (gd gu maxp : Nat) : Nat → List Nat → Nat → find_result
  | 0, _, _ => .out_of_fuel
  | fuel + 1, buf, inc =>
    if inc < 15 then
      if (buf.getD inc 0 + 1) % 256 = 0 then
        if inc = 0 then
          .ret false (buf.set inc ((buf.getD inc 0 + 1) % 256)) (USIZE - 1)
        else
          find_next_loop gd gu maxp fuel (buf.set inc ((buf.getD inc 0 + 1) % 256)) (inc - 1)
      else
        if candidate_rejected gd gu maxp (buf.set inc ((buf.getD inc 0 + 1) % 256)) then
          find_next_loop gd gu maxp fuel (buf.set inc ((buf.getD inc 0 + 1) % 256)) inc
        else
          .ret true (buf.set inc ((buf.getD inc 0 + 1) % 256)) inc
    else .oob

/-- `search_engine::find_next_candidate`, reading the mutable state and the
`max_prefixes_` member from the engine.  `gd`/`gu` are the global
`detect_prefixes`/`used_prefixes` bitmasks consulted by the file-static
lookup table and by `has_unused_prefixes`. -/
def find_next_candidate (gd gu : Nat) (fuel : Nat) (e : search_engine) : find_result :=
  find_next_loop gd gu e.max_prefixes_ fuel e.current_ e.increment_at_

/-- Drive repeated `find_next_candidate` calls to exhaustion: returns the
number of calls that returned `true` before the first call that returned
`false`, or `none` if the call bound or a per-call fuel ran out. -/
def calls_until_exhausted (gd gu : Nat) (iterFuel : Nat) :
    Nat → search_engine → Option Nat
  | 0, _ => none
  | callFuel + 1, e =>
    match find_next_candidate gd gu iterFuel e with
    | .ret false _ _ => some 0
    | .ret true buf inc =>
        Option.map (· + 1)
          (calls_until_exhausted gd gu iterFuel callFuel
            { e with current_ := buf, increment_at_ := inc })
    | _ => none

/-! ## Architecture bootstrap and fault dispatch (`src/x86_32/arch.cpp`)

Paging constants are the x86 architectural values of the `x86.hpp`
header (outside the provided sources). -/

def page_size : Nat := 4096
def PTE_P : Nat := 1
def PTE_W : Nat := 2
def PTE_U : Nat := 4
def PTE_PS : Nat := 128
def CR4_PSE : Nat := 16
def CR4_SMEP : Nat := 1 <<< 20
def CR0_PG : Nat := 1 <<< 31
def CR0_WP : Nat := 1 <<< 16

/-- `is_aligned` (`arch.cpp:46-50`): `0 == (v & ((1 << order) - 1))`.
Its internal `assert(order < 64)` is trivially satisfied at the only call
site (`order = 22`) and is not modelled. -/
def is_aligned (v : Nat) (order : Nat) : Bool :=
  decide (v &&& ((1 <<< order) - 1) = 0)

/-- Observable steps of `setup_paging`: page-directory stores, stores into
a synthesized second-level page table (identified by the table's base
address and the entry index `d`), stores into `user_pt`, control-register
writes, and a failed startup `assert` (which halts the machine, so it is
always the last action of a trace). -/
inductive action where
  | write_pdt (idx val : Nat)
  | write_pte (table idx val : Nat)
  | write_user_pt (idx val : Nat)
  | set_cr4 (v : Nat)
  | set_cr3 (v : Nat)
  | set_cr0 (v : Nat)
  | assert_alignment_failed      -- "Image needs to start on large page boundary"
  | assert_user_page_failed      -- "User page cannot be mapped into kernel area"
deriving DecidableEq

/-- The 1:1 mapping loop of `arch.cpp:70-84`: `for (c = istart; c <= iend;
c += (1 << 22))`, writing `pdt[c >> 22] = PTE_P | PTE_W | p` where `p` is
the large page itself (PSE) or the next synthesized table position. -/
def map_kernel_loop (pse : Bool) (iend : Nat) (c tablepos : Nat) : List action :=
  if c ≤ iend then
    action.write_pdt (c >>> 22)
        (PTE_P ||| PTE_W ||| (if pse then c ||| PTE_PS else tablepos)) ::
      map_kernel_loop pse iend (c + 4194304)
        (if pse then tablepos else tablepos + 4096)
  else []
termination_by iend + 1 - c
decreasing_by omega

/-- The inner fill loop of `arch.cpp:93-97`: `for (d = 0; d <= 1024;)
{ t[d++] = m | PTE_P | PTE_W; m += 4096; }`. -/
def fill_pt_loop (m d table : Nat) : List action :=
  if d ≤ 1024 then
    action.write_pte table d (m ||| PTE_P ||| PTE_W) :: fill_pt_loop (m + 4096) (d + 1) table
  else []
termination_by 1025 - d
decreasing_by omega

/-- The outer synthesized-table loop of `arch.cpp:88-99` (non-PSE case):
one 4 KiB table per 4 MiB covered, `tablepos` advancing by 4096. -/
def make_tables_loop (iend : Nat) (c tablepos : Nat) : List action :=
  if c ≤ iend then
    fill_pt_loop c 0 tablepos ++ make_tables_loop iend (c + 4194304) (tablepos + 4096)
  else []
termination_by iend + 1 - c
decreasing_by omega

/-- `setup_paging` (`arch.cpp:52-115`) as the trace of its observable
actions.  Hardware feature flags and the linker/ linker-script dependent
addresses (`_image_start`, `_image_end`, `&pdt`, `&user_pt`,
`user_page_backing`, current CR4/CR0) are parameters.  The user page is
`(1 << 20) + page_size` (`get_user_page`, `arch.cpp:36-44`), and
`bit_select(h, l, v)` of `util.hpp` extracts bits `[l, h)` of `v`. -/
def setup_paging (pse wp smep : Bool)
    (istart iend pdt_addr user_pt_addr backing_addr cr4 cr0 : Nat) : List action :=
  -- page_tables_start = iend + (1U << 22), rounded up to the next 4 KiB
  if is_aligned istart 22 = false then [action.assert_alignment_failed]
  else
    map_kernel_loop pse iend istart
        (if (iend + 4194304) &&& 0xFFF ≠ 0
         then ((iend + 4194304) + 0xFFF) &&& 0xFFFFF000
         else iend + 4194304) ++
    (if pse = false then
       make_tables_loop iend istart
         (if (iend + 4194304) &&& 0xFFF ≠ 0
          then ((iend + 4194304) + 0xFFF) &&& 0xFFFFF000
          else iend + 4194304)
     else []) ++
    (if (1048576 + page_size) + page_size ≤ istart then
       action.write_pdt (((1048576 + page_size) >>> 22) &&& 1023)
           (user_pt_addr ||| PTE_U ||| PTE_P) ::
       action.write_user_pt (((1048576 + page_size) >>> 12) &&& 1023)
           (backing_addr ||| PTE_U ||| PTE_P) ::
       ((if pse || smep then
           [action.set_cr4 (cr4 ||| (if pse then CR4_PSE else 0) |||
             (if smep then CR4_SMEP else 0))]
         else []) ++
        [action.set_cr3 pdt_addr,
         action.set_cr0 (cr0 ||| CR0_PG ||| (if wp then CR0_WP else 0))])
     else [action.assert_user_page_failed])

/-- Predicate on actions: a store into the synthesized table based at `t`. -/
def is_pte_write_to (t : Nat) (a : action) : Bool :=
  match a with
  | action.write_pte t2 _ _ => t2 == t
  | _ => false

/-- The exception frame pushed by the interrupt entry stubs; fields per the
spec's CapturedFault (vector, error code, selectors, instruction pointer,
flags, general-purpose registers) and the uses in `arch.cpp`
(`print_exception`, `execute_user`). -/
structure exception_frame where
  vector : Nat
  error_code : Nat
  ip : Nat
  cs : Nat
  eflags : Nat
  sp : Nat
  ss : Nat
  edi : Nat
  esi : Nat
deriving DecidableEq

/-- The process-wide state read and written by `irq_entry`
(`arch.cpp:23-29`): the one-shot continuation, the capture pointer
(modelled as a flag for non-nullness plus the pointee's contents
`captured_frame`), and the kernel stack pointer `tss.esp0`. -/
structure kernel_state where
  ring0_continuation : Option Nat
  ring3_exception_frame : Bool
  captured_frame : exception_frame
  esp0 : Nat
deriving DecidableEq

/-- Outcome of `irq_entry`: either the inline-asm resume (load `tss.esp0`
into the stack pointer and `jmp` to the continuation — control never
returns through `irq_entry`'s frame), or the fatal path, which prints the
diagnostic values shown (`print_exception`, `arch.cpp:150-157`) and
executes `wait_forever()`. -/
inductive irq_result where
  | resume (esp ret : Nat)
  | halted (vector error_code cs ip edi esi : Nat)
deriving DecidableEq

/-- `irq_entry` (`arch.cpp:159-180`).  The guard is the C++ truthiness of
`(ef.cs & 3) and ring0_continuation`. -/
def irq_entry (ef : exception_frame) (s : kernel_state) : irq_result × kernel_state :=
  if ef.cs &&& 3 ≠ 0 ∧ s.ring0_continuation ≠ none then
    (irq_result.resume s.esp0 (s.ring0_continuation.getD 0),
      if s.ring3_exception_frame then
        { s with ring0_continuation := none, ring3_exception_frame := false,
                 captured_frame := ef }
      else { s with ring0_continuation := none })
  else
    (irq_result.halted ef.vector ef.error_code ef.cs ef.ip ef.edi ef.esi, s)

/-! ## Generic `List.getD` helpers used throughout. -/

theorem list_getD_set_eq (l : List Nat) : ∀ (i a : Nat), i < l.length →
    (l.set i a).getD i 0 = a := by
  induction l with
  | nil => intro i a h; simp at h
  | cons b t ih =>
    intro i a h
    cases i with
    | zero => rfl
    | succ i => simpa using ih i a (by simpa using h)

theorem list_getD_set_ne (l : List Nat) : ∀ (i j a : Nat), i ≠ j →
    (l.set i a).getD j 0 = l.getD j 0 := by
  induction l with
  | nil => intro i j a _; simp [List.set]
  | cons b t ih =>
    intro i j a hij
    cases i with
    | zero =>
      cases j with
      | zero => exact absurd rfl hij
      | succ j => rfl
    | succ i =>
      cases j with
      | zero => rfl
      | succ j => simpa using ih i j a (fun h => hij (by rw [h]))

theorem list_getD_default (l : List Nat) : ∀ (i : Nat), l.length ≤ i →
    l.getD i 0 = 0 := by
  induction l with
  | nil => intro i _; simp [List.getD]
  | cons b t ih =>
    intro i h
    cases i with
    | zero => simp at h
    | succ i => simpa using ih i (by simpa using h)

theorem list_getD_append_left (l₁ l₂ : List Nat) : ∀ (i : Nat), i < l₁.length →
    (l₁ ++ l₂).getD i 0 = l₁.getD i 0 := by
  induction l₁ with
  | nil => intro i h; simp at h
  | cons b t ih =>
    intro i h
    cases i with
    | zero => rfl
    | succ i => simpa using ih i (by simpa using h)

theorem list_getD_append_right (l₁ l₂ : List Nat) : ∀ (i : Nat), l₁.length ≤ i →
    (l₁ ++ l₂).getD i 0 = l₂.getD (i - l₁.length) 0 := by
  induction l₁ with
  | nil => intro i _; simp
  | cons b t ih =>
    intro i h
    cases i with
    | zero => simp at h
    | succ i => simpa [Nat.succ_sub_succ] using ih i (by simpa using h)

theorem list_getD_take (l : List Nat) : ∀ (n i : Nat), i < n →
    (l.take n).getD i 0 = l.getD i 0 := by
  induction l with
  | nil => intro n i _; simp [List.getD]
  | cons b t ih =>
    intro n i h
    cases n with
    | zero => simp at h
    | succ n =>
      cases i with
      | zero => rfl
      | succ i => simpa using ih n i (by omega)

theorem list_getD_mem (l : List Nat) : ∀ (i : Nat), i < l.length →
    l.getD i 0 ∈ l := by
  induction l with
  | nil => intro i h; simp at h
  | cons b t ih =>
    intro i h
    cases i with
    | zero => simp [List.getD]
    | succ i =>
      have := ih i (by simpa using h)
      simp [List.getD] at this ⊢
      exact Or.inr this

theorem list_getD_replicate (n i : Nat) : (List.replicate n 0).getD i 0 = 0 := by
  induction n generalizing i with
  | zero => simp [List.getD]
  | succ n ih =>
    cases i with
    | zero => rfl
    | succ i => exact ih i

theorem mem_range'_iff (j : Nat) : ∀ (s n : Nat), j ∈ List.range' s n ↔ s ≤ j ∧ j < s + n := by
  intro s n
  induction n generalizing s with
  | zero => simp [List.range']
  | succ n ih =>
    simp only [List.range']
    rw [List.mem_cons, ih (s + 1)]
    omega

/-! ## Facts about the prefix-group table. -/

theorem opcode_to_prefix_group_bounds (d b : Nat) :
    -1 ≤ opcode_to_prefix_group d b ∧ opcode_to_prefix_group d b ≤ 4 := by
  unfold opcode_to_prefix_group
  repeat' split
  all_goals decide

theorem create_lut_bounds (d b : Nat) :
    -1 ≤ create_prefix_group_lut d b ∧ create_prefix_group_lut d b ≤ 4 :=
  opcode_to_prefix_group_bounds d (b % 256)

theorem create_lut_toNat_lt (d b : Nat) (h : ¬ create_prefix_group_lut d b < 0) :
    (create_prefix_group_lut d b).toNat < 5 := by
  have h2 := (create_lut_bounds d b).2
  omega

theorem length_prefix_run_le (d : Nat) : ∀ (bs : List Nat),
    (prefix_run d bs).length ≤ bs.length := by
  intro bs
  induction bs with
  | nil => simp [prefix_run]
  | cons b t ih =>
    rw [prefix_run, List.takeWhile_cons]
    split
    · simpa [prefix_run] using Nat.succ_le_succ ih
    · simp

/-! ## Characterization of the `analyze_prefixes` scan. -/

theorem analyzeLoop_eq_run (d : Nat) : ∀ (bs : List Nat) (i : Nat) (st : prefix_state),
    analyzeLoop d bs i st = analyzeLoop d (prefix_run d bs) i st := by
  intro bs
  induction bs with
  | nil => intro i st; rfl
  | cons b t ih =>
    intro i st
    by_cases hb : create_prefix_group_lut d b < 0
    · have hpb : is_prefix_byte d b = false := by
        simp only [is_prefix_byte, decide_eq_false_iff_not]
        omega
      simp [analyzeLoop, hb, prefix_run, List.takeWhile_cons, hpb]
    · have hpb : is_prefix_byte d b = true := by
        simp only [is_prefix_byte, decide_eq_true_eq]
        omega
      rw [prefix_run, List.takeWhile_cons, if_pos hpb]
      simp only [analyzeLoop, if_neg hb]
      exact ih _ _

theorem analyzeLoop_count (d g : Nat) (hg : g < 5) :
    ∀ (bs : List Nat) (i : Nat) (st : prefix_state),
      st.count.length = 5 →
      st.count.getD g 0 + bs.length ≤ 255 →
      (analyzeLoop d bs i st).count.getD g 0 =
        st.count.getD g 0 +
          ((prefix_run d bs).filter
            (fun b => decide (create_prefix_group_lut d b = Int.ofNat g))).length := by
  intro bs
  induction bs with
  | nil => intro i st _ _; simp [analyzeLoop, prefix_run]
  | cons b t ih =>
    intro i st hlen hbound
    by_cases hb : create_prefix_group_lut d b < 0
    · have hpb : is_prefix_byte d b = false := by
        simp only [is_prefix_byte, decide_eq_false_iff_not]; omega
      simp [analyzeLoop, hb, prefix_run, List.takeWhile_cons, hpb]
    · have hpb : is_prefix_byte d b = true := by
        simp only [is_prefix_byte, decide_eq_true_eq]; omega
      have hlt5 : (create_prefix_group_lut d b).toNat < 5 := create_lut_toNat_lt d b hb
      rw [prefix_run, List.takeWhile_cons, if_pos hpb]
      simp only [analyzeLoop, if_neg hb]
      rw [ih (i + 1) _ (by simpa using hlen)]
      · simp only [List.length_cons] at hbound
        by_cases hgg : (create_prefix_group_lut d b).toNat = g
        · have hlutb : create_prefix_group_lut d b = Int.ofNat g := by
            rw [← hgg]; exact (Int.toNat_of_nonneg (by omega)).symm
          have hmod : (st.count.getD g 0 + 1) % 256 = st.count.getD g 0 + 1 :=
            Nat.mod_eq_of_lt (by omega)
          rw [List.filter_cons_of_pos (by simpa using hlutb)]
          have hset : (st.count.set (create_prefix_group_lut d b).toNat
              ((st.count.getD (create_prefix_group_lut d b).toNat 0 + 1) % 256)).getD g 0 =
              st.count.getD g 0 + 1 := by
            rw [hgg, hmod, list_getD_set_eq _ g _ (by omega)]
          simp only [hset, List.length_cons, prefix_run]
          omega
        · have hlutb : ¬ create_prefix_group_lut d b = Int.ofNat g := by
            intro hcon
            exact hgg (by rw [hcon]; rfl)
          have hset : (st.count.set (create_prefix_group_lut d b).toNat
              ((st.count.getD (create_prefix_group_lut d b).toNat 0 + 1) % 256)).getD g 0 =
              st.count.getD g 0 :=
            list_getD_set_ne _ _ _ _ hgg
          rw [List.filter_cons_of_neg (by simpa using hlutb)]
          simp only [hset]
          rfl
      · -- bound for the recursive call
        simp only [List.length_cons] at hbound
        by_cases hgg : (create_prefix_group_lut d b).toNat = g
        · have hmod : (st.count.getD g 0 + 1) % 256 = st.count.getD g 0 + 1 :=
            Nat.mod_eq_of_lt (by omega)
          rw [hgg, hmod, list_getD_set_eq _ g _ (by omega)]
          omega
        · rw [list_getD_set_ne _ _ _ _ hgg]
          omega

theorem analyzeLoop_pos_frozen (d g : Nat) :
    ∀ (bs : List Nat) (i : Nat) (st : prefix_state),
      (∀ b ∈ prefix_run d bs, ¬ create_prefix_group_lut d b = Int.ofNat g) →
      (analyzeLoop d bs i st).position.getD g 0 = st.position.getD g 0 := by
  intro bs
  induction bs with
  | nil => intro i st _; rfl
  | cons b t ih =>
    intro i st hnone
    by_cases hb : create_prefix_group_lut d b < 0
    · simp [analyzeLoop, hb]
    · have hpb : is_prefix_byte d b = true := by
        simp only [is_prefix_byte, decide_eq_true_eq]; omega
      have hrun : prefix_run d (b :: t) = b :: prefix_run d t := by
        rw [prefix_run, List.takeWhile_cons, if_pos hpb]; rfl
      rw [hrun] at hnone
      have hbne : ¬ create_prefix_group_lut d b = Int.ofNat g :=
        hnone b (List.mem_cons_self b _)
      have hgg : (create_prefix_group_lut d b).toNat ≠ g := by
        intro hcon
        exact hbne (by rw [← hcon]; exact (Int.toNat_of_nonneg (by omega)).symm)
      simp only [analyzeLoop, if_neg hb]
      rw [ih (i + 1) _ (fun b2 hb2 => hnone b2 (List.mem_cons_of_mem b hb2))]
      exact list_getD_set_ne _ _ _ _ hgg

theorem list_getD_cons_zero (a : Nat) (l : List Nat) : (a :: l).getD 0 0 = a := rfl

theorem list_getD_cons_succ (a : Nat) (l : List Nat) (k : Nat) :
    (a :: l).getD (k + 1) 0 = l.getD k 0 := rfl

theorem analyzeLoop_pos_char (d g : Nat) (hg : g < 5) :
    ∀ (bs : List Nat) (i : Nat) (st : prefix_state),
      st.position.length = 5 →
      i + bs.length ≤ 256 →
      (∃ b ∈ prefix_run d bs, create_prefix_group_lut d b = Int.ofNat g) →
      ∃ k, k < (prefix_run d bs).length ∧
        (analyzeLoop d bs i st).position.getD g 0 = i + k ∧
        create_prefix_group_lut d ((prefix_run d bs).getD k 0) = Int.ofNat g ∧
        ∀ k2, k2 < (prefix_run d bs).length → k < k2 →
          ¬ create_prefix_group_lut d ((prefix_run d bs).getD k2 0) = Int.ofNat g := by
  intro bs
  induction bs with
  | nil => intro i st _ _ hocc; simp [prefix_run] at hocc
  | cons b t ih =>
    intro i st hlen hbound hocc
    simp only [List.length_cons] at hbound
    by_cases hb : create_prefix_group_lut d b < 0
    · have hpb : is_prefix_byte d b = false := by
        simp only [is_prefix_byte, decide_eq_false_iff_not]; omega
      rw [prefix_run, List.takeWhile_cons, if_neg (by simp [hpb])] at hocc
      simp at hocc
    · have hpb : is_prefix_byte d b = true := by
        simp only [is_prefix_byte, decide_eq_true_eq]; omega
      have hrun : prefix_run d (b :: t) = b :: prefix_run d t := by
        rw [prefix_run, List.takeWhile_cons, if_pos hpb]; rfl
      simp only [analyzeLoop, if_neg hb]
      by_cases hocc2 : ∃ b2 ∈ prefix_run d t, create_prefix_group_lut d b2 = Int.ofNat g
      · obtain ⟨k, hk, hpos, hbyte, hmax⟩ :=
          ih (i + 1)
            { count := st.count.set (create_prefix_group_lut d b).toNat
                ((st.count.getD (create_prefix_group_lut d b).toNat 0 + 1) % 256),
              position := st.position.set (create_prefix_group_lut d b).toNat (i % 256) }
            (by simpa using hlen) (by omega) hocc2
        refine ⟨k + 1, ?_, ?_, ?_, ?_⟩
        · rw [hrun, List.length_cons]; omega
        · rw [hpos]; omega
        · rw [hrun, list_getD_cons_succ]; exact hbyte
        · intro k2 hk2 hkk
          rw [hrun, List.length_cons] at hk2
          cases k2 with
          | zero => omega
          | succ k3 =>
            rw [hrun, list_getD_cons_succ]
            exact hmax k3 (by omega) (by omega)
      · have hbg : create_prefix_group_lut d b = Int.ofNat g := by
          rw [hrun] at hocc
          rcases hocc with ⟨b2, hmem, heq⟩
          rcases List.mem_cons.mp hmem with h1 | h2
          · rwa [h1] at heq
          · exact absurd ⟨b2, h2, heq⟩ hocc2
        have hggb : (create_prefix_group_lut d b).toNat = g := by
          rw [hbg]; rfl
        have hfrozen := analyzeLoop_pos_frozen d g t (i + 1)
          { count := st.count.set (create_prefix_group_lut d b).toNat
              ((st.count.getD (create_prefix_group_lut d b).toNat 0 + 1) % 256),
            position := st.position.set (create_prefix_group_lut d b).toNat (i % 256) }
          (fun b2 hb2 heq => hocc2 ⟨b2, hb2, heq⟩)
        refine ⟨0, ?_, ?_, ?_, ?_⟩
        · rw [hrun, List.length_cons]; omega
        · rw [hfrozen]
          simp only [hggb]
          rw [list_getD_set_eq _ g _ (by rw [hlen]; exact hg)]
          have hi : i % 256 = i := Nat.mod_eq_of_lt (by omega)
          omega
        · rw [hrun, list_getD_cons_zero]; exact hbg
        · intro k2 hk2 hkk
          rw [hrun, List.length_cons] at hk2
          cases k2 with
          | zero => omega
          | succ k3 =>
            rw [hrun, list_getD_cons_succ]
            have hk3 : k3 < (prefix_run d t).length := by omega
            exact fun heq => hocc2 ⟨_, list_getD_mem _ k3 hk3, heq⟩

/-! ## Invariants of the `find_next_candidate` loop. -/

theorem find_next_loop_ret_length (gd gu maxp : Nat) :
    ∀ (fuel : Nat) (buf : List Nat) (inc : Nat) (b : Bool) (buf2 : List Nat) (inc2 : Nat),
      find_next_loop gd gu maxp fuel buf inc = .ret b buf2 inc2 →
      buf2.length = buf.length := by
  intro fuel
  induction fuel with
  | zero => intro buf inc b buf2 inc2 h; simp [find_next_loop] at h
  | succ fuel ih =>
    intro buf inc b buf2 inc2 h
    simp only [find_next_loop] at h
    split_ifs at h
    all_goals first
      | (exact (ih _ _ _ _ _ h).trans (List.length_set _ _ _))
      | (cases h; exact List.length_set _ _ _)

theorem find_next_loop_no_oob (gd gu maxp : Nat) :
    ∀ (fuel : Nat) (buf : List Nat) (inc : Nat), inc < 15 →
      find_next_loop gd gu maxp fuel buf inc ≠ .oob := by
  intro fuel
  induction fuel with
  | zero => intro buf inc _; simp [find_next_loop]
  | succ fuel ih =>
    intro buf inc hinc
    simp only [find_next_loop]
    split_ifs with h1 h2 h3
    · simp
    · exact ih _ _ (by omega)
    · exact ih _ _ hinc
    · simp

theorem find_next_loop_accepts (gd gu maxp : Nat) :
    ∀ (fuel : Nat) (buf : List Nat) (inc : Nat) (buf2 : List Nat) (inc2 : Nat),
      find_next_loop gd gu maxp fuel buf inc = .ret true buf2 inc2 →
      candidate_rejected gd gu maxp buf2 = false ∧ inc2 < 15 := by
  intro fuel
  induction fuel with
  | zero => intro buf inc buf2 inc2 h; simp [find_next_loop] at h
  | succ fuel ih =>
    intro buf inc buf2 inc2 h
    simp only [find_next_loop] at h
    split_ifs at h with h1 h2 h3 h4
    · simp at h
    · exact ih _ _ _ _ h
    · exact ih _ _ _ _ h
    · cases h
      exact ⟨by simpa using h4, h1⟩

theorem candidate_rejected_false (gd gu maxp : Nat) (buf : List Nat)
    (h : candidate_rejected gd gu maxp buf = false) :
    (analyze_prefixes gd buf).total_prefix_bytes ≤ maxp ∧
    (analyze_prefixes gd buf).has_duplicated_prefixes = false ∧
    (analyze_prefixes gd buf).has_unused_prefixes gu = false ∧
    (analyze_prefixes gd buf).has_ordered_prefixes = true := by
  unfold candidate_rejected at h
  simp only [Bool.or_eq_false_iff, Bool.not_eq_false', decide_eq_false_iff_not,
    Nat.not_lt] at h
  exact ⟨h.1.1.1, h.1.1.2, h.1.2, h.2⟩

theorem count_le_one_of_no_dup (st : prefix_state)
    (h : st.has_duplicated_prefixes = false) (g : Nat) : st.count.getD g 0 ≤ 1 := by
  unfold prefix_state.has_duplicated_prefixes at h
  rw [List.any_eq_false] at h
  by_cases hg : g < st.count.length
  · have h2 := h _ (list_getD_mem _ g hg)
    simp only [decide_eq_true_eq] at h2
    omega
  · rw [list_getD_default _ g (by omega)]
    omega

theorem used_bit_of_no_unused (st : prefix_state) (gu : Nat)
    (h : st.has_unused_prefixes gu = false) (g : Nat) (hg : g < 5)
    (hc : st.count.getD g 0 ≠ 0) : gu &&& (1 <<< g) ≠ 0 := by
  unfold prefix_state.has_unused_prefixes at h
  rw [List.any_eq_false] at h
  have h2 := h g (List.mem_range.mpr hg)
  intro hz
  exact h2 (by simp only [Bool.and_eq_true, decide_eq_true_eq]; exact ⟨hc, hz⟩)

theorem pos_le_of_ordered (st : prefix_state) (h : st.has_ordered_prefixes = true)
    (i j : Nat) (hij : i < j) (hj : j < 5)
    (hci : st.count.getD i 0 ≠ 0) (hcj : st.count.getD j 0 ≠ 0) :
    st.position.getD i 0 ≤ st.position.getD j 0 := by
  unfold prefix_state.has_ordered_prefixes at h
  rw [List.all_eq_true] at h
  have h1 := h i (List.mem_range.mpr (by omega))
  simp only [List.all_eq_true] at h1
  have h2 := h1 j (by rw [mem_range'_iff]; omega)
  by_contra hle
  rw [Nat.not_le] at hle
  rw [Bool.not_eq_true'] at h2
  have ha : decide (st.count.getD i 0 ≠ 0) = true := by simpa using hci
  have hb : decide (st.count.getD j 0 ≠ 0) = true := by simpa using hcj
  have hc2 : decide (st.position.getD j 0 < st.position.getD i 0) = true := by
    simpa using hle
  rw [ha, hb, hc2] at h2
  simp at h2

/-- C1: every candidate accepted by `find_next_candidate` (a call returning
`true`) has a prefix analysis whose total classified prefix bytes stay
within the engine's `max_prefixes_`, in which no prefix group is classified
twice, and whose classified groups all lie inside the permitted
`used_prefixes` bitmask `gu`. -/
theorem find_next_candidate_prefix_limits (gd gu fuel : Nat) (e : search_engine)
    (buf2 : List Nat) (inc2 : Nat)
    (h : find_next_candidate gd gu fuel e = .ret true buf2 inc2) :
    (analyze_prefixes gd buf2).total_prefix_bytes ≤ e.max_prefixes_ ∧
    (∀ g, g < 5 → (analyze_prefixes gd buf2).count.getD g 0 ≤ 1) ∧
    (∀ g, g < 5 → (analyze_prefixes gd buf2).count.getD g 0 ≠ 0 →
      gu &&& (1 <<< g) ≠ 0) := by
  unfold find_next_candidate at h
  have hrej := (find_next_loop_accepts gd gu e.max_prefixes_ fuel
    e.current_ e.increment_at_ buf2 inc2 h).1
  have hdec := candidate_rejected_false _ _ _ _ hrej
  exact ⟨hdec.1,
    fun g _ => count_le_one_of_no_dup _ hdec.2.1 g,
    fun g hg hc => used_bit_of_no_unused _ gu hdec.2.2.1 g hg hc⟩

theorem find_next_candidate_prefix_limits_witness :
    (find_next_candidate 0xFF 0xFF 2 (search_engine.make 0 0xFF 0xFF (List.replicate 15 0)) =
      .ret true (1 :: List.replicate 14 0) 0) ∧
    ((analyze_prefixes 0xFF (1 :: List.replicate 14 0)).total_prefix_bytes ≤
      (search_engine.make 0 0xFF 0xFF (List.replicate 15 0)).max_prefixes_ ∧
    (∀ g, g < 5 → (analyze_prefixes 0xFF (1 :: List.replicate 14 0)).count.getD g 0 ≤ 1) ∧
    (∀ g, g < 5 → (analyze_prefixes 0xFF (1 :: List.replicate 14 0)).count.getD g 0 ≠ 0 →
      (0xFF : Nat) &&& (1 <<< g) ≠ 0)) :=
  ⟨by decide,
   find_next_candidate_prefix_limits 0xFF 0xFF 2
     (search_engine.make 0 0xFF 0xFF (List.replicate 15 0)) (1 :: List.replicate 14 0) 0
     (by decide)⟩

/-- C2: in every candidate accepted by `find_next_candidate` from an engine
holding the 15-byte buffer, classified prefix groups appear in increasing
group-id order by byte position: for any two present groups `i < j`
(lock/repeat = 0, segment = 1, operand size = 2, address size = 3,
REX = 4), the recorded position of group `i` precedes that of group `j`. -/
theorem find_next_candidate_orders_prefix_groups (gd gu fuel : Nat)
    (e : search_engine) (buf2 : List Nat) (inc2 : Nat)
    (h15 : e.current_.length = 15)
    (h : find_next_candidate gd gu fuel e = .ret true buf2 inc2) :
    ∀ i j, i < 5 → j < 5 → i < j →
      (analyze_prefixes gd buf2).count.getD i 0 ≠ 0 →
      (analyze_prefixes gd buf2).count.getD j 0 ≠ 0 →
      (analyze_prefixes gd buf2).position.getD i 0 <
        (analyze_prefixes gd buf2).position.getD j 0 := by
  intro i j hi hj hij hci hcj
  unfold find_next_candidate at h
  have hlen : buf2.length = 15 :=
    (find_next_loop_ret_length gd gu e.max_prefixes_ fuel
      e.current_ e.increment_at_ true buf2 inc2 h).trans h15
  have hrej := (find_next_loop_accepts gd gu e.max_prefixes_ fuel
    e.current_ e.increment_at_ buf2 inc2 h).1
  have hdec := candidate_rejected_false _ _ _ _ hrej
  have hle := pos_le_of_ordered _ hdec.2.2.2 i j hij hj hci hcj
  -- count characterization: the counts are occurrence counts in the run
  have hcount_i : (analyze_prefixes gd buf2).count.getD i 0 =
      (List.replicate 5 0).getD i 0 +
        ((prefix_run gd buf2).filter
          (fun b => decide (create_prefix_group_lut gd b = Int.ofNat i))).length :=
    analyzeLoop_count gd i hi buf2 0
      ⟨List.replicate 5 0, List.replicate 5 0⟩ (by simp)
      (by show (List.replicate 5 0).getD i 0 + buf2.length ≤ 255
          rw [list_getD_replicate, hlen]; omega)
  have hcount_j : (analyze_prefixes gd buf2).count.getD j 0 =
      (List.replicate 5 0).getD j 0 +
        ((prefix_run gd buf2).filter
          (fun b => decide (create_prefix_group_lut gd b = Int.ofNat j))).length :=
    analyzeLoop_count gd j hj buf2 0
      ⟨List.replicate 5 0, List.replicate 5 0⟩ (by simp)
      (by show (List.replicate 5 0).getD j 0 + buf2.length ≤ 255
          rw [list_getD_replicate, hlen]; omega)
  rw [list_getD_replicate, Nat.zero_add] at hcount_i hcount_j
  -- hence both groups occur inside the classified run
  have hocc_i : ∃ b ∈ prefix_run gd buf2,
      create_prefix_group_lut gd b = Int.ofNat i := by
    rw [hcount_i] at hci
    obtain ⟨b, hbmem⟩ := List.exists_mem_of_length_pos (Nat.pos_of_ne_zero hci)
    have hsplit := List.mem_filter.mp hbmem
    exact ⟨b, hsplit.1, by simpa using hsplit.2⟩
  have hocc_j : ∃ b ∈ prefix_run gd buf2,
      create_prefix_group_lut gd b = Int.ofNat j := by
    rw [hcount_j] at hcj
    obtain ⟨b, hbmem⟩ := List.exists_mem_of_length_pos (Nat.pos_of_ne_zero hcj)
    have hsplit := List.mem_filter.mp hbmem
    exact ⟨b, hsplit.1, by simpa using hsplit.2⟩
  -- the recorded positions are indices of bytes of the respective groups
  obtain ⟨ki, hki, hpi, hbi, _⟩ := analyzeLoop_pos_char gd i hi buf2 0
    ⟨List.replicate 5 0, List.replicate 5 0⟩ (by simp) (by omega) hocc_i
  obtain ⟨kj, hkj, hpj, hbj, _⟩ := analyzeLoop_pos_char gd j hj buf2 0
    ⟨List.replicate 5 0, List.replicate 5 0⟩ (by simp) (by omega) hocc_j
  have hpi2 : (analyze_prefixes gd buf2).position.getD i 0 = 0 + ki := hpi
  have hpj2 : (analyze_prefixes gd buf2).position.getD j 0 = 0 + kj := hpj
  -- distinct groups cannot share a byte index
  have hne : ki ≠ kj := by
    intro hcon
    rw [hcon, hbj] at hbi
    exact absurd (Int.ofNat.inj hbi).symm (Nat.ne_of_lt hij)
  omega

theorem find_next_candidate_orders_prefix_groups_witness :
    ((search_engine.make 2 0xFF 0xFF
        ([0xF0, 0x2E, 0, 0, 0, 0, 0, 0, 0, 0, 0, 0, 0, 0, 0])).current_.length = 15 ∧
     find_next_candidate 0xFF 0xFF 2
       (start_over (search_engine.make 2 0xFF 0xFF
         ([0xF0, 0x2E, 0, 0, 0, 0, 0, 0, 0, 0, 0, 0, 0, 0, 0])) 3) =
       .ret true ([0xF0, 0x2E, 1, 0, 0, 0, 0, 0, 0, 0, 0, 0, 0, 0, 0]) 2) ∧
    ((analyze_prefixes 0xFF ([0xF0, 0x2E, 1, 0, 0, 0, 0, 0, 0, 0, 0, 0, 0, 0, 0])).position.getD 0 0 <
      (analyze_prefixes 0xFF ([0xF0, 0x2E, 1, 0, 0, 0, 0, 0, 0, 0, 0, 0, 0, 0, 0])).position.getD 1 0) :=
  ⟨⟨by decide, by decide⟩,
   find_next_candidate_orders_prefix_groups 0xFF 0xFF 2
     (start_over (search_engine.make 2 0xFF 0xFF
       ([0xF0, 0x2E, 0, 0, 0, 0, 0, 0, 0, 0, 0, 0, 0, 0, 0])) 3)
     ([0xF0, 0x2E, 1, 0, 0, 0, 0, 0, 0, 0, 0, 0, 0, 0, 0]) 2
     (by decide) (by decide) 0 1 (by decide) (by decide) (by decide)
     (by decide) (by decide)⟩

set_option maxRecDepth 10000 in
/-- C3: starting from the all-zero 15-byte buffer with the default
configuration (`max_prefixes = 0`, `used = detect = 0xFF`), after
`start_over(1)` the enumeration is finite: 228 calls return `true` and the
next call — in which byte 0 wraps past 0xFF and the cursor post-decrement
underflows below position zero — returns `false` (exhausted). -/
theorem search_exhausts_after_wrap :
    calls_until_exhausted 0xFF 0xFF 300 300
      (start_over (search_engine.make 0 0xFF 0xFF (List.replicate 15 0)) 1) =
      some 228 := by
  decide

/-- C5: `analyze_prefixes` classifies exactly the maximal initial run of
recognized prefix bytes of the 15-byte buffer: the analysis of the buffer
equals the analysis of that run (bytes at or after the first non-prefix
byte contribute nothing), each group's count is the number of scanned bytes
of that group, and each occurring group's recorded position is the index of
the last scanned byte of that group. -/
theorem analyze_prefixes_scan_characterization (d : Nat) (buf : List Nat)
    (h15 : buf.length = 15) :
    analyze_prefixes d buf = analyze_prefixes d (prefix_run d buf) ∧
    (∀ g, g < 5 → (analyze_prefixes d buf).count.getD g 0 =
      ((prefix_run d buf).filter
        (fun b => decide (create_prefix_group_lut d b = Int.ofNat g))).length) ∧
    (∀ g, g < 5 →
      ((prefix_run d buf).filter
        (fun b => decide (create_prefix_group_lut d b = Int.ofNat g))).length ≠ 0 →
      ∃ k, k < (prefix_run d buf).length ∧
        (analyze_prefixes d buf).position.getD g 0 = k ∧
        create_prefix_group_lut d ((prefix_run d buf).getD k 0) = Int.ofNat g ∧
        ∀ k2, k2 < (prefix_run d buf).length → k < k2 →
          ¬ create_prefix_group_lut d ((prefix_run d buf).getD k2 0) = Int.ofNat g) := by
  refine ⟨analyzeLoop_eq_run d buf 0 ⟨List.replicate 5 0, List.replicate 5 0⟩, ?_, ?_⟩
  · intro g hg
    have hch : (analyze_prefixes d buf).count.getD g 0 =
        (List.replicate 5 0).getD g 0 +
          ((prefix_run d buf).filter
            (fun b => decide (create_prefix_group_lut d b = Int.ofNat g))).length :=
      analyzeLoop_count d g hg buf 0 ⟨List.replicate 5 0, List.replicate 5 0⟩ (by simp)
        (by show (List.replicate 5 0).getD g 0 + buf.length ≤ 255
            rw [list_getD_replicate, h15]; omega)
    rw [list_getD_replicate, Nat.zero_add] at hch
    exact hch
  · intro g hg hne
    have hocc : ∃ b ∈ prefix_run d buf,
        create_prefix_group_lut d b = Int.ofNat g := by
      obtain ⟨b, hbmem⟩ := List.exists_mem_of_length_pos (Nat.pos_of_ne_zero hne)
      have hsplit := List.mem_filter.mp hbmem
      exact ⟨b, hsplit.1, by simpa using hsplit.2⟩
    obtain ⟨k, hk, hp, hb, hmax⟩ := analyzeLoop_pos_char d g hg buf 0
      ⟨List.replicate 5 0, List.replicate 5 0⟩ (by simp) (by omega) hocc
    have hp2 : (analyze_prefixes d buf).position.getD g 0 = 0 + k := hp
    rw [Nat.zero_add] at hp2
    exact ⟨k, hk, hp2, hb, hmax⟩

theorem analyze_prefixes_scan_characterization_witness :
    (([0x66, 0xF0, 5, 0, 0, 0, 0, 0, 0, 0, 0, 0, 0, 0, 0] : List Nat).length = 15) ∧
    (analyze_prefixes 0xFF [0x66, 0xF0, 5, 0, 0, 0, 0, 0, 0, 0, 0, 0, 0, 0, 0] =
      analyze_prefixes 0xFF
        (prefix_run 0xFF [0x66, 0xF0, 5, 0, 0, 0, 0, 0, 0, 0, 0, 0, 0, 0, 0]) ∧
    (∀ g, g < 5 →
      (analyze_prefixes 0xFF [0x66, 0xF0, 5, 0, 0, 0, 0, 0, 0, 0, 0, 0, 0, 0, 0]).count.getD g 0 =
      ((prefix_run 0xFF [0x66, 0xF0, 5, 0, 0, 0, 0, 0, 0, 0, 0, 0, 0, 0, 0]).filter
        (fun b => decide (create_prefix_group_lut 0xFF b = Int.ofNat g))).length) ∧
    (∀ g, g < 5 →
      ((prefix_run 0xFF [0x66, 0xF0, 5, 0, 0, 0, 0, 0, 0, 0, 0, 0, 0, 0, 0]).filter
        (fun b => decide (create_prefix_group_lut 0xFF b = Int.ofNat g))).length ≠ 0 →
      ∃ k, k < (prefix_run 0xFF [0x66, 0xF0, 5, 0, 0, 0, 0, 0, 0, 0, 0, 0, 0, 0, 0]).length ∧
        (analyze_prefixes 0xFF [0x66, 0xF0, 5, 0, 0, 0, 0, 0, 0, 0, 0, 0, 0, 0, 0]).position.getD g 0 = k ∧
        create_prefix_group_lut 0xFF
          ((prefix_run 0xFF [0x66, 0xF0, 5, 0, 0, 0, 0, 0, 0, 0, 0, 0, 0, 0, 0]).getD k 0) =
          Int.ofNat g ∧
        ∀ k2, k2 < (prefix_run 0xFF [0x66, 0xF0, 5, 0, 0, 0, 0, 0, 0, 0, 0, 0, 0, 0, 0]).length →
          k < k2 →
          ¬ create_prefix_group_lut 0xFF
              ((prefix_run 0xFF [0x66, 0xF0, 5, 0, 0, 0, 0, 0, 0, 0, 0, 0, 0, 0, 0]).getD k2 0) =
            Int.ofNat g)) :=
  ⟨by decide,
   analyze_prefixes_scan_characterization 0xFF
     [0x66, 0xF0, 5, 0, 0, 0, 0, 0, 0, 0, 0, 0, 0, 0, 0] (by decide)⟩

/-- C6: for every position `p`, `clear_after` keeps bytes `[0, p)` of the
15-byte buffer, zeroes every byte from `p` to the end, and leaves the
cursor (`increment_at_`) and the configuration members untouched. -/
theorem clear_after_frame (e : search_engine) (p : Nat)
    (h15 : e.current_.length = 15) :
    (∀ i, i < p → (clear_after e p).current_.getD i 0 = e.current_.getD i 0) ∧
    (∀ i, p ≤ i → (clear_after e p).current_.getD i 0 = 0) ∧
    (clear_after e p).increment_at_ = e.increment_at_ ∧
    (clear_after e p).max_prefixes_ = e.max_prefixes_ ∧
    (clear_after e p).used_prefixes_ = e.used_prefixes_ ∧
    (clear_after e p).group_lut_ = e.group_lut_ := by
  unfold clear_after
  by_cases hp : p < 15
  · rw [if_pos hp]
    have htl : (e.current_.take p).length = p := by
      rw [List.length_take]; omega
    refine ⟨?_, ?_, rfl, rfl, rfl, rfl⟩
    · intro i hip
      rw [list_getD_append_left _ _ i (by omega)]
      exact list_getD_take _ p i hip
    · intro i hpi
      by_cases hi15 : i < 15
      · rw [list_getD_append_right _ _ i (by omega)]
        exact list_getD_replicate _ _
      · refine list_getD_default _ i ?_
        rw [List.length_append, List.length_take, List.length_replicate]
        omega
  · rw [if_neg hp]
    refine ⟨fun i _ => rfl, ?_, rfl, rfl, rfl, rfl⟩
    intro i hpi
    exact list_getD_default _ i (by omega)

theorem clear_after_frame_witness :
    ((search_engine.make 0 0xFF 0xFF (List.replicate 15 7)).current_.length = 15) ∧
    ((∀ i, i < 3 →
       (clear_after (search_engine.make 0 0xFF 0xFF (List.replicate 15 7)) 3).current_.getD i 0 =
       (search_engine.make 0 0xFF 0xFF (List.replicate 15 7)).current_.getD i 0) ∧
     (∀ i, 3 ≤ i →
       (clear_after (search_engine.make 0 0xFF 0xFF (List.replicate 15 7)) 3).current_.getD i 0 = 0) ∧
     (clear_after (search_engine.make 0 0xFF 0xFF (List.replicate 15 7)) 3).increment_at_ =
       (search_engine.make 0 0xFF 0xFF (List.replicate 15 7)).increment_at_ ∧
     (clear_after (search_engine.make 0 0xFF 0xFF (List.replicate 15 7)) 3).max_prefixes_ =
       (search_engine.make 0 0xFF 0xFF (List.replicate 15 7)).max_prefixes_ ∧
     (clear_after (search_engine.make 0 0xFF 0xFF (List.replicate 15 7)) 3).used_prefixes_ =
       (search_engine.make 0 0xFF 0xFF (List.replicate 15 7)).used_prefixes_ ∧
     (clear_after (search_engine.make 0 0xFF 0xFF (List.replicate 15 7)) 3).group_lut_ =
       (search_engine.make 0 0xFF 0xFF (List.replicate 15 7)).group_lut_) :=
  ⟨by decide, clear_after_frame (search_engine.make 0 0xFF 0xFF (List.replicate 15 7)) 3 (by decide)⟩

theorem int_neg_one_ne_ofNat (n : Nat) : (-1 : Int) ≠ Int.ofNat n := by
  intro h
  have h2 : (-1 : Int) = (n : Int) := by exact_mod_cast h
  omega

/-- C7 counterexample: with the global `detect_prefixes` bitmask `0xFF`, an
engine constructed with detect bitmask `0` — whose own member table
`group_lut_` maps 0x66 to "not a prefix" (bit 2 of its constructor bitmask
is clear) — still gets candidate bytes 0x66 and 0x67 classified as prefixes
during `find_next_candidate` (with `max_prefixes_ = 0` they are rejected,
so the accepted candidate starts with 0x68 instead of 0x66): the
classification consulted the file-static table built from the global
bitmask, not the table built from the engine constructor's bitmask. -/
theorem prefix_table_ignores_ctor_bitmask_cex :
    find_next_candidate 0xFF 0xFF 300
      (search_engine.make 0 0xFF 0 (0x65 :: List.replicate 14 0)) =
      .ret true (0x68 :: List.replicate 14 0) 0 ∧
    (search_engine.make 0 0xFF 0 (0x65 :: List.replicate 14 0)).group_lut_ 0x66 = -1 ∧
    create_prefix_group_lut 0xFF 0x66 = Int.ofNat 2 ∧
    (0 : Nat) &&& (1 <<< 2) = 0 := by
  decide

/-- C7 (amended): the table consulted by prefix classification is built
once from the global `detect_prefixes` bitmask — a byte maps to group `g`
only if bit `g` of the bitmask the table was built from is set — and
`find_next_candidate` behaves identically for engines constructed with
different `used_prefixes`/`detect_prefixes` constructor arguments: only the
global configuration and `max_prefixes_` influence classification. -/
theorem prefix_classification_uses_global_bitmask :
    (∀ d b g, g < 5 → create_prefix_group_lut d b = Int.ofNat g →
      d &&& (1 <<< g) ≠ 0) ∧
    (∀ gd gu fuel maxp u1 u2 d1 d2 start,
      find_next_candidate gd gu fuel (search_engine.make maxp u1 d1 start) =
      find_next_candidate gd gu fuel (search_engine.make maxp u2 d2 start)) := by
  constructor
  · intro d b g hg h
    unfold create_prefix_group_lut opcode_to_prefix_group at h
    repeat' split at h
    all_goals first
      | (exact absurd h (int_neg_one_ne_ofNat g))
      | (have h0 : g = 0 := Int.ofNat.inj h.symm
         subst h0; assumption)
      | (have h0 : g = 1 := Int.ofNat.inj h.symm
         subst h0; assumption)
      | (have h0 : g = 2 := Int.ofNat.inj h.symm
         subst h0; assumption)
      | (have h0 : g = 3 := Int.ofNat.inj h.symm
         subst h0; assumption)
      | (have h0 : g = 4 := Int.ofNat.inj h.symm
         subst h0; assumption)
  · intro gd gu fuel maxp u1 u2 d1 d2 start
    rfl

theorem prefix_classification_uses_global_bitmask_witness :
    (2 < 5 ∧ create_prefix_group_lut 0xFF 0x66 = Int.ofNat 2) ∧
    ((0xFF : Nat) &&& (1 <<< 2) ≠ 0) :=
  ⟨⟨by decide, by decide⟩,
   prefix_classification_uses_global_bitmask.1 0xFF 0x66 2 (by decide) (by decide)⟩

/-- C9 (amended): whenever `find_next_candidate`'s loop starts with
`increment_at_ < 15` — as after construction, after any successful call,
and after `start_over(L)` with `1 ≤ L ≤ 15` — every buffer access is in
bounds (the result is never `oob`), the buffer keeps its length, and a
successful call leaves the cursor in bounds again. -/
theorem find_next_candidate_inbounds (gd gu maxp fuel : Nat)
    (buf : List Nat) (inc : Nat) (hinc : inc < 15) :
    find_next_loop gd gu maxp fuel buf inc ≠ .oob ∧
    (∀ b buf2 inc2, find_next_loop gd gu maxp fuel buf inc = .ret b buf2 inc2 →
      buf2.length = buf.length ∧ (b = true → inc2 < 15)) :=
  ⟨find_next_loop_no_oob gd gu maxp fuel buf inc hinc,
   fun b buf2 inc2 h =>
     ⟨find_next_loop_ret_length gd gu maxp fuel buf inc b buf2 inc2 h,
      fun hb => (find_next_loop_accepts gd gu maxp fuel buf inc buf2 inc2 (hb ▸ h)).2⟩⟩

theorem find_next_candidate_inbounds_witness :
    0 < 15 ∧
    (find_next_loop 0xFF 0xFF 0 2 (List.replicate 15 0) 0 ≠ .oob ∧
    (∀ b buf2 inc2, find_next_loop 0xFF 0xFF 0 2 (List.replicate 15 0) 0 = .ret b buf2 inc2 →
      buf2.length = (List.replicate 15 0).length ∧ (b = true → inc2 < 15))) :=
  ⟨by decide, find_next_candidate_inbounds 0xFF 0xFF 0 2 (List.replicate 15 0) 0 (by decide)⟩

/-- C9 counterexample: `start_over(0)` underflows the `size_t` cursor to
`2^32 - 1`, and the next `find_next_candidate` call dereferences
`current_.raw[increment_at_]` out of bounds; likewise, a call made after
exhaustion has been reported (which leaves the cursor at `2^32 - 1`) is out
of bounds — so not every public-operation sequence stays in bounds. -/
theorem find_next_candidate_oob_cex :
    (start_over (search_engine.make 0 0xFF 0xFF (List.replicate 15 0)) 0).increment_at_ =
      USIZE - 1 ∧
    find_next_candidate 0xFF 0xFF 5
      (start_over (search_engine.make 0 0xFF 0xFF (List.replicate 15 0)) 0) = .oob ∧
    find_next_loop 0xFF 0xFF 0 5 (0xFF :: List.replicate 14 0) 0 =
      .ret false (0 :: List.replicate 14 0) (USIZE - 1) ∧
    find_next_loop 0xFF 0xFF 0 5 (0 :: List.replicate 14 0) (USIZE - 1) = .oob := by
  decide

/-! ## Facts about `setup_paging` and `irq_entry`. -/

theorem fill_pt_loop_closed : ∀ (n d m table : Nat), d + n = 1025 →
    fill_pt_loop m d table =
      (List.range' 0 n).map (fun k =>
        action.write_pte table (d + k) ((m + 4096 * k) ||| PTE_P ||| PTE_W)) := by
  intro n
  induction n with
  | zero =>
    intro d m table hd
    rw [fill_pt_loop, if_neg (by omega)]
    simp
  | succ n ih =>
    intro d m table hd
    rw [fill_pt_loop, if_pos (by omega), ih (d + 1) (m + 4096) table (by omega)]
    show _ :: _ = (0 :: List.range' 1 n).map _
    rw [List.map_cons]
    refine congrArg₂ _ (by norm_num) ?_
    rw [List.range'_eq_map_range 0 n, List.range'_eq_map_range 1 n,
      List.map_map, List.map_map]
    refine List.map_congr_left ?_
    intro a _
    show action.write_pte table (d + 1 + (0 + a)) ((m + 4096 + 4096 * (0 + a)) ||| _ ||| _) =
      action.write_pte table (d + (1 + a)) ((m + 4096 * (1 + a)) ||| _ ||| _)
    refine congrArg₂ _ (by omega) ?_
    refine congrArg₂ _ ?_ rfl
    refine congrArg₂ _ ?_ rfl
    ring

/-- C4: when `irq_entry` handles a frame whose code-segment selector has a
nonzero privilege level and a continuation is pending with a capture
pointer set, it copies the full fault frame into the capture slot, clears
both the continuation and the capture pointer, and resumes at the saved
resume address on the saved privileged stack pointer (`tss.esp0`) — the
`resume` outcome models the inline-asm stack switch and `jmp`, which never
returns through `irq_entry`; a privileged-context fault (`cs & 3 = 0`) with
no continuation pending instead produces the fatal outcome: the diagnostic
values of `print_exception` followed by `wait_forever`, with no state
change and no recovery. -/
theorem irq_entry_continuation_protocol (ef : exception_frame)
    (s : kernel_state) (r : Nat) :
    (ef.cs &&& 3 ≠ 0 → s.ring0_continuation = some r →
      s.ring3_exception_frame = true →
      irq_entry ef s = (irq_result.resume s.esp0 r,
        { s with ring0_continuation := none, ring3_exception_frame := false,
                 captured_frame := ef })) ∧
    (ef.cs &&& 3 = 0 → s.ring0_continuation = none →
      irq_entry ef s =
        (irq_result.halted ef.vector ef.error_code ef.cs ef.ip ef.edi ef.esi, s)) := by
  constructor
  · intro h1 h2 h3
    unfold irq_entry
    rw [if_pos ⟨h1, by rw [h2]; exact Option.some_ne_none r⟩]
    rw [h2, h3]
    simp
  · intro h1 h2
    unfold irq_entry
    rw [if_neg]
    intro hcon
    exact hcon.1 h1

theorem irq_entry_continuation_protocol_witness :
    (((27 : Nat) &&& 3 ≠ 0) ∧
     irq_entry (⟨13, 2, 4096, 27, 258, 20480, 35, 7, 8⟩ : exception_frame)
         (⟨some 8738, true, ⟨0, 0, 0, 0, 0, 0, 0, 0, 0⟩, 36864⟩ : kernel_state) =
       (irq_result.resume 36864 8738,
        (⟨none, false, ⟨13, 2, 4096, 27, 258, 20480, 35, 7, 8⟩, 36864⟩ : kernel_state))) ∧
    (((8 : Nat) &&& 3 = 0) ∧
     irq_entry (⟨13, 2, 4096, 8, 258, 20480, 35, 7, 8⟩ : exception_frame)
         (⟨none, false, ⟨0, 0, 0, 0, 0, 0, 0, 0, 0⟩, 0⟩ : kernel_state) =
       (irq_result.halted 13 2 8 4096 7 8,
        (⟨none, false, ⟨0, 0, 0, 0, 0, 0, 0, 0, 0⟩, 0⟩ : kernel_state))) :=
  ⟨⟨by decide,
    (irq_entry_continuation_protocol (⟨13, 2, 4096, 27, 258, 20480, 35, 7, 8⟩ : exception_frame)
      (⟨some 8738, true, ⟨0, 0, 0, 0, 0, 0, 0, 0, 0⟩, 36864⟩ : kernel_state) 8738).1
      (by decide) rfl rfl⟩,
   ⟨by decide,
    (irq_entry_continuation_protocol (⟨13, 2, 4096, 8, 258, 20480, 35, 7, 8⟩ : exception_frame)
      (⟨none, false, ⟨0, 0, 0, 0, 0, 0, 0, 0, 0⟩, 0⟩ : kernel_state) 0).2
      (by decide) rfl⟩⟩

/-- C8: if the kernel image's start address `istart` is not aligned to the
4 MiB large-page boundary (`is_aligned(istart, 22)` fails), `setup_paging`
fails its startup assertion (`arch.cpp:65`) before performing any
observable action: the assertion precedes the 1:1 mapping loops
(`arch.cpp:70-100`), the user-page stores (`arch.cpp:106-107`) and the
control-register writes (`arch.cpp:111-114`), so the whole trace is the
failed assertion.  In particular the page-directory base register is never
loaded (no `set_cr3`), the CR0 paging-enable bit is never set (no
`set_cr0`), and indeed no store or register write of any kind occurs —
with a misaligned image, paging is never enabled. -/
theorem setup_paging_misaligned_never_enables (pse wp smep : Bool)
    (istart iend pdt_addr user_pt_addr backing_addr cr4 cr0 : Nat)
    (h : is_aligned istart 22 = false) :
    setup_paging pse wp smep istart iend pdt_addr user_pt_addr backing_addr cr4 cr0 =
      [action.assert_alignment_failed] ∧
    (∀ v, action.set_cr3 v ∉
      setup_paging pse wp smep istart iend pdt_addr user_pt_addr backing_addr cr4 cr0) ∧
    (∀ v, action.set_cr0 v ∉
      setup_paging pse wp smep istart iend pdt_addr user_pt_addr backing_addr cr4 cr0) ∧
    (∀ a, a ∈ setup_paging pse wp smep istart iend pdt_addr user_pt_addr
        backing_addr cr4 cr0 → a = action.assert_alignment_failed) := by
  have htrace : setup_paging pse wp smep istart iend pdt_addr user_pt_addr
      backing_addr cr4 cr0 = [action.assert_alignment_failed] := by
    unfold setup_paging
    rw [if_pos h]
  refine ⟨htrace, fun v => ?_, fun v => ?_, fun a ha => ?_⟩
  · rw [htrace]; simp
  · rw [htrace]; simp
  · rw [htrace] at ha
    simpa using ha

theorem setup_paging_misaligned_never_enables_witness :
    (is_aligned 4096 22 = false) ∧
    (setup_paging true true true 4096 4096 1 2 3 0 0 =
      [action.assert_alignment_failed] ∧
    (∀ v, action.set_cr3 v ∉ setup_paging true true true 4096 4096 1 2 3 0 0) ∧
    (∀ v, action.set_cr0 v ∉ setup_paging true true true 4096 4096 1 2 3 0 0) ∧
    (∀ a, a ∈ setup_paging true true true 4096 4096 1 2 3 0 0 →
      a = action.assert_alignment_failed)) :=
  ⟨by decide,
   setup_paging_misaligned_never_enables true true true 4096 4096 1 2 3 0 0 (by decide)⟩

theorem map_kernel_loop_concrete : map_kernel_loop false 4194304 4194304 8388608 =
    [action.write_pdt 1 8388611] := by
  rw [map_kernel_loop, if_pos (by decide), map_kernel_loop, if_neg (by decide)]
  decide

theorem make_tables_loop_concrete : make_tables_loop 4194304 4194304 8388608 =
    fill_pt_loop 4194304 0 8388608 := by
  rw [make_tables_loop, if_pos (by decide), make_tables_loop, if_neg (by decide)]
  rw [List.append_nil]

theorem setup_paging_trace_concrete :
    setup_paging false false false 4194304 4194304 5242880 5246976 5251072 0 0 =
    action.write_pdt 1 8388611 :: (fill_pt_loop 4194304 0 8388608 ++
    [action.write_pdt 0 5246981, action.write_user_pt 257 5251077,
     action.set_cr3 5242880, action.set_cr0 2147483648]) := by
  unfold setup_paging
  rw [if_neg (by decide)]
  rw [if_neg (by decide)]
  rw [if_pos rfl]
  rw [map_kernel_loop_concrete, make_tables_loop_concrete]
  rw [if_pos (by decide)]
  rw [if_neg (by decide)]
  rw [List.nil_append]
  have e3 : ((1048576 + page_size) >>> 22) &&& 1023 = 0 := by decide
  have e4 : (5246976 : Nat) ||| PTE_U ||| PTE_P = 5246981 := by decide
  have e5 : ((1048576 + page_size) >>> 12) &&& 1023 = 257 := by decide
  have e6 : (5251072 : Nat) ||| PTE_U ||| PTE_P = 5251077 := by decide
  have e7 : (0 : Nat) ||| CR0_PG ||| (if false = true then CR0_WP else 0) = 2147483648 := by
    rw [if_neg (by decide)]
    decide
  rw [e3, e4, e5, e6, e7]
  simp [List.append_assoc]

/-- C10 (code bug): on a CPU without large-page support, the fill loop of
`setup_paging` (`for (d = 0; d <= 1024;)` at `arch.cpp:93`) writes 1025
entries into each synthesized 4 KiB page table — the write at entry index
1024 lies 4096 bytes past the table base, i.e. in the first entry of the
next table — although a 4 KiB table holds exactly 1024 four-byte entries
(`tablepos` advances by 4096 per table).  Shown here on a one-table image:
the table at `0x800000` receives 1025 stores, including index 1024. -/
theorem setup_paging_fill_writes_1025_entries :
    ((setup_paging false false false 4194304 4194304 5242880 5246976 5251072 0 0).filter
      (is_pte_write_to 8388608)).length = 1025 ∧
    action.write_pte 8388608 1024 8388611 ∈
      setup_paging false false false 4194304 4194304 5242880 5246976 5251072 0 0 := by
  have hfill := fill_pt_loop_closed 1025 0 4194304 8388608 (by omega)
  constructor
  · rw [setup_paging_trace_concrete, hfill]
    rw [List.filter_cons_of_neg (by decide)]
    rw [List.filter_append]
    rw [List.filter_map]
    have hcomp : (is_pte_write_to 8388608 ∘ fun k =>
        action.write_pte 8388608 (0 + k) ((4194304 + 4096 * k) ||| PTE_P ||| PTE_W)) =
        fun _ => true := by
      funext k
      simp [is_pte_write_to, Function.comp]
    rw [hcomp]
    have hrest : List.filter (is_pte_write_to 8388608)
        [action.write_pdt 0 5246981, action.write_user_pt 257 5251077,
         action.set_cr3 5242880, action.set_cr0 2147483648] = [] := by decide
    rw [hrest]
    simp [List.length_range']
  · rw [setup_paging_trace_concrete, hfill]
    refine List.mem_cons_of_mem _ (List.mem_append_left _ ?_)
    rw [List.mem_map]
    refine ⟨1024, ?_, by decide⟩
    rw [mem_range'_iff]
    omega
